import Mathlib

/-!
Verification of the `poc-menu` repository (`src/App.tsx`) against its
natural-language specification.

The heart of the program is the greedy column packer inside
`MenuContainer`'s layout effect (App.tsx lines 141-158): a single
left-to-right `reduce` over the item elements that assigns each item
index to a column of a JavaScript array `acc`, keyed by a running
`currentColumn` counter.  JavaScript arrays written at a skipped index
contain holes, so the accumulator is modelled as a list of optional
columns (`JSArr`); reading a hole or an out-of-bounds index yields
`none`, exactly like reading `undefined`.  Heights and the budget are
modelled as exact rationals.

The remaining definitions embed the guard of the layout effect
(lines 138-139), its cleanup (lines 162-165), the `App` state updates
for `itemsCount` (lines 318-352), and the `useDropdownContext` hook
(lines 41-52).
-/

namespace PocMenu

/-- A JavaScript array of columns: `none` is a hole (an index that was
never assigned), `some c` is the column `c` of item indices. -/
abbrev JSArr := List (Option (List Nat))

/-- Reading `a[i]` from a JavaScript array: holes and out-of-bounds
reads both yield `undefined`, i.e. `none`. -/
def jsGet : JSArr → Nat → Option (List Nat)
  | [], _ => none
  | x :: _, 0 => x
  | _ :: xs, i + 1 => jsGet xs i

/-- Writing `a[i] = v` to a JavaScript array: indices beyond the current
length are padded with holes. -/
def jsSet : JSArr → Nat → List Nat → JSArr
  | [], 0, v => [some v]
  | [], i + 1, v => none :: jsSet [] i v
  | _ :: xs, 0, v => some v :: xs
  | x :: xs, i + 1, v => x :: jsSet xs i v

/-- `acc[i] = (acc[i] || []).concat(idx)` from App.tsx line 154. -/
def jsAppendAt (a : JSArr) (i : Nat) (idx : Nat) : JSArr :=
  jsSet a i ((jsGet a i).getD [] ++ [idx])

/-- One iteration of the reduce in App.tsx lines 145-157.  The state is
`(columnHeight, currentColumn, acc)`; the input pair is `(idx, height)`
as produced by enumerating the children.  The code first updates
`columnHeight`/`currentColumn` (lines 148-152), then performs the
assignment at the updated `currentColumn` (line 154). -/
def packStep (maxHeight : ℚ) (s : ℚ × Nat × JSArr) (p : Nat × ℚ) : ℚ × Nat × JSArr :=
  if p.2 + s.1 ≤ maxHeight then
    (s.1 + p.2, s.2.1, jsAppendAt s.2.2 s.2.1 p.1)
  else
    (p.2, s.2.1 + 1, jsAppendAt s.2.2 (s.2.1 + 1) p.1)

/-- The packer of App.tsx lines 141-158: reduce over the measured child
heights in source order, starting from `columnHeight = 0`,
`currentColumn = 0` and an empty accumulator. -/
def packColumns (maxHeight : ℚ) (heights : List ℚ) : JSArr :=
  (heights.enum.foldl (packStep maxHeight) (0, 0, [])).2.2

/-- The sequence of actual columns of the accumulator, with holes
skipped — this is what the rendering `columns?.map` iterates over
(JavaScript `map` skips holes, and React renders one `MenuColumn` per
actual entry). -/
def denseCols (a : JSArr) : List (List Nat) := a.filterMap id

/-- Concatenation of all actual columns in order. -/
def jsFlat (a : JSArr) : List Nat := (denseCols a).flatten

/-- Number of actual (non-hole) columns. -/
def dlen (a : JSArr) : Nat := (denseCols a).length

/-- Sum of the heights of the items of a column, looking indices up in
the original height list. -/
def hsum (heights : List ℚ) (c : List Nat) : ℚ :=
  (c.map (fun i => heights.getD i 0)).sum

/-- Modelled from the spec (§4.1), for the refinement claim: the
spec-worded recursion.  "For each item in source order: if
`currentColumnHeight + item.height <= maxHeight`, append the item to the
current column and add its height to `currentColumnHeight`.  Otherwise,
start a new column: `currentColumnIndex += 1`, reset
`currentColumnHeight = item.height`, append the item to the new
column." -/
def packSpecGo (maxHeight : ℚ) (cols : JSArr) (currentColumnHeight : ℚ)
    (currentColumnIndex : Nat) : List (Nat × ℚ) → JSArr
  | [] => cols
  | p :: rest =>
    if currentColumnHeight + p.2 ≤ maxHeight then
      packSpecGo maxHeight (jsAppendAt cols currentColumnIndex p.1)
        (currentColumnHeight + p.2) currentColumnIndex rest
    else
      packSpecGo maxHeight (jsAppendAt cols (currentColumnIndex + 1) p.1)
        p.2 (currentColumnIndex + 1) rest

/-- Modelled from the spec (§4.1): the packer as the spec words it,
processing the indexed heights in source order from a zero running
height and column index 0. -/
def packSpecModel (maxHeight : ℚ) (heights : List ℚ) : JSArr :=
  packSpecGo maxHeight [] 0 0 heights.enum

/-- Structural invariant of the reduce state: the accumulator is empty
(before the first item) or `currentColumn` points at its last entry. -/
def StInv (s : ℚ × Nat × JSArr) : Prop :=
  s.2.2 = [] ∨ s.2.2.length = s.2.1 + 1

/-- A column respects the budget or is an oversized singleton. -/
def colOk (B : ℚ) (H : List ℚ) (c : List Nat) : Prop :=
  hsum H c ≤ B ∨ c.length = 1

/-- Height-sum invariant of the reduce state: all columns are `colOk`,
and the running `columnHeight` is the height sum of the current (last)
column. -/
def packInv (B : ℚ) (H : List ℚ) (s : ℚ × Nat × JSArr) : Prop :=
  (∀ c, some c ∈ s.2.2 → colOk B H c) ∧
    ((s.2.2 = [] ∧ s.1 = 0) ∨
      (s.2.2.length = s.2.1 + 1 ∧
        ∃ ccur, jsGet s.2.2 s.2.1 = some ccur ∧ hsum H ccur = s.1))

/-- Shape invariant used for budget monotonicity: either the initial
state, or the accumulator ends exactly at `currentColumn` with an
actual column there. -/
def goodSt (s : ℚ × Nat × JSArr) : Prop :=
  (s.2.2 = [] ∧ s.2.1 = 0 ∧ s.1 = 0) ∨
    (s.2.2.length = s.2.1 + 1 ∧ (jsGet s.2.2 s.2.1).isSome = true)

/-- Lockstep relation between the run with the smaller budget (`s1`)
and the run with the larger budget (`s2`): the larger budget never has
more actual columns, and on equal column counts its running height is
no larger. -/
def packRel (s1 s2 : ℚ × Nat × JSArr) : Prop :=
  0 ≤ s1.1 ∧ 0 ≤ s2.1 ∧ goodSt s1 ∧ goodSt s2 ∧
    (s1.2.2 = [] ↔ s2.2.2 = []) ∧
    (dlen s2.2.2 < dlen s1.2.2 ∨ (dlen s2.2.2 = dlen s1.2.2 ∧ s2.1 ≤ s1.1))

/-- Invariant after an oversized first item: the column counter stays
at least 1, position 0 of the accumulator is a hole, and the column at
index 1 starts with item 0. -/
def overflowInv (s : ℚ × Nat × JSArr) : Prop :=
  1 ≤ s.2.1 ∧ s.2.2.length = s.2.1 + 1 ∧ jsGet s.2.2 0 = none ∧
    ∃ c, jsGet s.2.2 1 = some (0 :: c)

/-- `maxHeight = 0.8 * (height - top)` from App.tsx line 134. -/
def computeMaxHeight (height top : ℚ) : ℚ := (8 / 10) * (height - top)

/-- The guard of the layout effect, App.tsx line 139:
`if (!childrenRefs.current || !top) return;`.  `registryPresent` models
the truthiness of `childrenRefs.current` (always an array in practice),
and `!top` is the JavaScript falsiness test of the measured top offset,
true exactly when `top = 0`.  The effect body (the packer) runs exactly
when this returns `true`. -/
def layoutEffectRuns (registryPresent : Bool) (top : ℚ) : Bool :=
  registryPresent && !(decide (top = 0))

/-- The state of one `MenuContainer`: the packed flag, the computed
columns (`none` before the first computation), and the child-element
registry `childrenRefs.current`, modelled as a list of optional opaque
element handles. -/
structure MenuState where
  hasCalculatedColumns : Bool
  columns : Option JSArr
  childrenRefs : List (Option Nat)

/-- The layout-effect cleanup of App.tsx lines 162-165, which runs on
any change of the effect dependencies `children`, `maxHeight`, `top`
(and on unmount): `setColumns([]); setHasCalculatedColumns(false);`.
Nothing in the component ever writes to `childrenRefs.current` except
the per-index ref callbacks of lines 173-177. -/
def effectCleanup (s : MenuState) : MenuState :=
  { s with columns := some [], hasCalculatedColumns := false }

/-- The ref callback of App.tsx lines 173-177: registering a mounted
element handle at its index (`childrenRefs.current[idx] = ref`),
modelled with the same hole-padding JavaScript array write. -/
def registerChild : List (Option Nat) → Nat → Nat → List (Option Nat)
  | [], 0, r => [some r]
  | [], i + 1, r => none :: registerChild [] i r
  | _ :: xs, 0, r => some r :: xs
  | x :: xs, i + 1, r => x :: registerChild xs i r

/-- The remove-item button of App.tsx lines 326-330:
`setItemsCount(prev => prev - 1)`. -/
def removeItemClick (n : ℤ) : ℤ := n - 1

/-- The add-item button of App.tsx lines 331-335:
`setItemsCount(prev => prev + 1)`. -/
def addItemClick (n : ℤ) : ℤ := n + 1

/-- Decimal value of a digit string, as `Number` computes it on the
already-filtered digits (most significant first). -/
def digitsValue (l : List Char) : Nat :=
  l.foldl (fun n c => 10 * n + (c.toNat - 48)) 0

/-- The text input handler of App.tsx lines 347-349:
`setItemsCount(Number(evt.target.value.replace(/\D+/g, '') || '0'))` —
strip every non-digit character, then read the decimal value (the
empty string falls back to `'0'`, i.e. the value 0, which
`digitsValue` already yields on the empty list). -/
def inputChangeValue (s : String) : ℤ :=
  Int.ofNat (digitsValue (s.data.filter Char.isDigit))

/-- The error message thrown by `useDropdownContext`, App.tsx
lines 45-47. -/
def dropdownErrorMessage : String :=
  "useDropdownContext hook must be used within DropdownProvider."

/-- The `useDropdownContext` hook of App.tsx lines 41-50: reading the
context value; a missing provider (a `none` context) throws, a present
value is returned unchanged. -/
def useDropdownContext {α : Type} (dropdownContext : Option α) : Except String α :=
  match dropdownContext with
  | none => Except.error dropdownErrorMessage
  | some ctx => Except.ok ctx

/-! ## Basic lemmas about the JavaScript array operations -/

lemma length_jsSet_of_ge : ∀ (a : JSArr) (i : Nat) (v : List Nat),
    a.length ≤ i → (jsSet a i v).length = i + 1
  | [], 0, v, _ => rfl
  | [], i + 1, v, _ => by
    simp only [jsSet, List.length_cons, length_jsSet_of_ge [] i v (Nat.zero_le i)]
  | x :: xs, 0, v, h => by simp at h
  | x :: xs, i + 1, v, h => by
    simp only [jsSet, List.length_cons,
      length_jsSet_of_ge xs i v (by simpa using h)]

lemma length_jsSet_of_lt : ∀ (a : JSArr) (i : Nat) (v : List Nat),
    i < a.length → (jsSet a i v).length = a.length
  | [], i, v, h => absurd h (by simp)
  | x :: xs, 0, v, _ => by simp [jsSet]
  | x :: xs, i + 1, v, h => by
    simp only [jsSet, List.length_cons,
      length_jsSet_of_lt xs i v (by simpa using h)]

lemma jsSet_ne_nil (a : JSArr) (i : Nat) (v : List Nat) : jsSet a i v ≠ [] := by
  intro hnil
  rcases Nat.lt_or_ge i a.length with h | h
  · have := length_jsSet_of_lt a i v h
    rw [hnil] at this
    simp at this
    omega
  · have := length_jsSet_of_ge a i v h
    rw [hnil] at this
    simp at this

lemma jsGet_jsSet_self : ∀ (a : JSArr) (i : Nat) (v : List Nat),
    jsGet (jsSet a i v) i = some v
  | [], 0, v => rfl
  | [], i + 1, v => by
    simp only [jsSet, jsGet]
    exact jsGet_jsSet_self [] i v
  | x :: xs, 0, v => rfl
  | x :: xs, i + 1, v => by
    simp only [jsSet, jsGet]
    exact jsGet_jsSet_self xs i v

lemma jsGet_jsSet_ne : ∀ (a : JSArr) (i j : Nat) (v : List Nat),
    j ≠ i → jsGet (jsSet a i v) j = jsGet a j
  | [], 0, 0, v, h => absurd rfl h
  | [], 0, j + 1, v, _ => by simp [jsSet, jsGet]
  | [], i + 1, 0, v, _ => by simp [jsSet, jsGet]
  | [], i + 1, j + 1, v, h => by
    simp only [jsSet, jsGet]
    rw [jsGet_jsSet_ne [] i j v (by omega)]
    rfl
  | x :: xs, 0, 0, v, h => absurd rfl h
  | x :: xs, 0, j + 1, v, _ => by simp [jsSet, jsGet]
  | x :: xs, i + 1, 0, v, _ => by simp [jsSet, jsGet]
  | x :: xs, i + 1, j + 1, v, h => by
    simp only [jsSet, jsGet]
    exact jsGet_jsSet_ne xs i j v (by omega)

lemma jsGet_eq_none_of_length_le : ∀ (a : JSArr) (i : Nat),
    a.length ≤ i → jsGet a i = none
  | [], _, _ => rfl
  | x :: xs, 0, h => by simp at h
  | x :: xs, i + 1, h => jsGet_eq_none_of_length_le xs i (by simpa using h)

lemma mem_jsSet : ∀ (a : JSArr) (i : Nat) (v : List Nat) (x : Option (List Nat)),
    x ∈ jsSet a i v → x ∈ a ∨ x = some v ∨ x = none
  | [], 0, v, x, h => by
    simp only [jsSet, List.mem_singleton] at h
    exact Or.inr (Or.inl h)
  | [], i + 1, v, x, h => by
    simp only [jsSet, List.mem_cons] at h
    rcases h with h | h
    · exact Or.inr (Or.inr h)
    · exact mem_jsSet [] i v x h
  | y :: ys, 0, v, x, h => by
    simp only [jsSet, List.mem_cons] at h
    rcases h with h | h
    · exact Or.inr (Or.inl h)
    · exact Or.inl (List.mem_cons_of_mem y h)
  | y :: ys, i + 1, v, x, h => by
    simp only [jsSet, List.mem_cons] at h
    rcases h with h | h
    · exact Or.inl (h ▸ List.mem_cons_self y ys)
    · rcases mem_jsSet ys i v x h with h' | h'
      · exact Or.inl (List.mem_cons_of_mem y h')
      · exact Or.inr h'

lemma dlen_cons (x : Option (List Nat)) (a : JSArr) :
    dlen (x :: a) = (if x.isSome = true then 1 else 0) + dlen a := by
  cases x <;> simp [dlen, denseCols] <;> omega

lemma jsFlat_nil : jsFlat [] = [] := rfl

lemma jsFlat_cons (x : Option (List Nat)) (a : JSArr) :
    jsFlat (x :: a) = x.getD [] ++ jsFlat a := by
  cases x <;> simp [jsFlat, denseCols]

lemma dlen_jsSet_of_isSome : ∀ (a : JSArr) (i : Nat) (v : List Nat),
    (jsGet a i).isSome = true → dlen (jsSet a i v) = dlen a
  | [], i, v, h => by simp [jsGet] at h
  | x :: xs, 0, v, h => by
    cases x
    · simp [jsGet] at h
    · simp [jsSet, dlen_cons]
  | x :: xs, i + 1, v, h => by
    simp only [jsSet, dlen_cons]
    rw [dlen_jsSet_of_isSome xs i v (by simpa [jsGet] using h)]

lemma dlen_jsSet_of_none : ∀ (a : JSArr) (i : Nat) (v : List Nat),
    jsGet a i = none → dlen (jsSet a i v) = dlen a + 1
  | [], 0, v, _ => by simp [jsSet, dlen, denseCols]
  | [], i + 1, v, _ => by
    simp only [jsSet, dlen_cons]
    rw [dlen_jsSet_of_none [] i v rfl]
    simp
  | x :: xs, 0, v, h => by
    have hx : x = none := h
    subst hx
    simp [jsSet, dlen_cons]
    omega
  | x :: xs, i + 1, v, h => by
    simp only [jsSet, dlen_cons]
    rw [dlen_jsSet_of_none xs i v (by simpa [jsGet] using h)]
    omega

lemma jsFlat_jsSet_of_ge : ∀ (a : JSArr) (i : Nat) (v : List Nat),
    a.length ≤ i → jsFlat (jsSet a i v) = jsFlat a ++ v
  | [], 0, v, _ => by simp [jsSet, jsFlat, denseCols]
  | [], i + 1, v, _ => by
    simp only [jsSet, jsFlat_cons, Option.getD_none, List.nil_append]
    rw [jsFlat_jsSet_of_ge [] i v (Nat.zero_le i)]
  | x :: xs, 0, v, h => by simp at h
  | x :: xs, i + 1, v, h => by
    simp only [jsSet, jsFlat_cons]
    rw [jsFlat_jsSet_of_ge xs i v (by simpa using h), List.append_assoc]

lemma jsAppendAt_nil (i idx : Nat) : jsAppendAt [] i idx = jsSet [] i [idx] := rfl

lemma jsFlat_jsAppendAt_nil (i idx : Nat) : jsFlat (jsAppendAt [] i idx) = [idx] := by
  rw [jsAppendAt_nil, jsFlat_jsSet_of_ge [] i [idx] (Nat.zero_le i), jsFlat_nil,
    List.nil_append]

lemma jsFlat_jsAppendAt_last : ∀ (a : JSArr) (i : Nat) (idx : Nat),
    a.length = i + 1 → jsFlat (jsAppendAt a i idx) = jsFlat a ++ [idx]
  | [], i, idx, h => by simp at h
  | x :: xs, 0, idx, h => by
    have hxs : xs = [] := by
      have : xs.length = 0 := by simpa using h
      exact List.length_eq_zero.mp this
    subst hxs
    cases x <;> simp [jsAppendAt, jsSet, jsGet, jsFlat, denseCols]
  | x :: xs, i + 1, idx, h => by
    have hstep : jsAppendAt (x :: xs) (i + 1) idx = x :: jsAppendAt xs i idx := rfl
    rw [hstep, jsFlat_cons, jsFlat_jsAppendAt_last xs i idx (by simpa using h),
      jsFlat_cons, List.append_assoc]

/-! ## The reduce step preserves the structural invariant, and appends
exactly the processed index to the flattened output -/

lemma packStep_pos {B ch : ℚ} {cc : Nat} {acc : JSArr} {p : Nat × ℚ}
    (hc : p.2 + ch ≤ B) :
    packStep B (ch, cc, acc) p = (ch + p.2, cc, jsAppendAt acc cc p.1) := by
  simp [packStep, hc]

lemma packStep_neg {B ch : ℚ} {cc : Nat} {acc : JSArr} {p : Nat × ℚ}
    (hc : ¬ p.2 + ch ≤ B) :
    packStep B (ch, cc, acc) p = (p.2, cc + 1, jsAppendAt acc (cc + 1) p.1) := by
  simp [packStep, hc]

lemma stInv_init : StInv (0, 0, ([] : JSArr)) := Or.inl rfl

lemma stInv_packStep (B : ℚ) (s : ℚ × Nat × JSArr) (p : Nat × ℚ)
    (h : StInv s) : StInv (packStep B s p) := by
  rcases s with ⟨ch, cc, acc⟩
  by_cases hc : p.2 + ch ≤ B
  · rw [packStep_pos hc]
    right
    rcases h with h | h
    · simp only at h
      subst h
      exact length_jsSet_of_ge [] cc _ (Nat.zero_le cc)
    · simp only at h
      rw [show jsAppendAt acc cc p.1 = jsSet acc cc _ from rfl,
        length_jsSet_of_lt acc cc _ (by omega)]
      exact h
  · rw [packStep_neg hc]
    right
    rcases h with h | h
    · simp only at h
      subst h
      exact length_jsSet_of_ge [] (cc + 1) _ (Nat.zero_le _)
    · simp only at h
      exact length_jsSet_of_ge acc (cc + 1) _ (by omega)

lemma jsFlat_packStep (B : ℚ) (s : ℚ × Nat × JSArr) (p : Nat × ℚ)
    (h : StInv s) : jsFlat (packStep B s p).2.2 = jsFlat s.2.2 ++ [p.1] := by
  rcases s with ⟨ch, cc, acc⟩
  by_cases hc : p.2 + ch ≤ B
  · rw [packStep_pos hc]
    rcases h with h | h
    · simp only at h
      subst h
      simp [jsFlat_jsAppendAt_nil, jsFlat_nil]
    · simp only at h ⊢
      exact jsFlat_jsAppendAt_last acc cc p.1 h
  · rw [packStep_neg hc]
    rcases h with h | h
    · simp only at h
      subst h
      simp [jsFlat_jsAppendAt_nil, jsFlat_nil]
    · simp only at h ⊢
      rw [show jsAppendAt acc (cc + 1) p.1 =
          jsSet acc (cc + 1) ((jsGet acc (cc + 1)).getD [] ++ [p.1]) from rfl,
        jsGet_eq_none_of_length_le acc (cc + 1) (by omega)]
      simp only [Option.getD_none, List.nil_append]
      exact jsFlat_jsSet_of_ge acc (cc + 1) [p.1] (by omega)

lemma jsFlat_foldl (B : ℚ) : ∀ (l : List (Nat × ℚ)) (s : ℚ × Nat × JSArr),
    StInv s →
    jsFlat ((l.foldl (packStep B) s)).2.2 = jsFlat s.2.2 ++ l.map Prod.fst
  | [], s, _ => by simp
  | p :: l, s, h => by
    rw [List.foldl_cons, jsFlat_foldl B l _ (stInv_packStep B s p h),
      jsFlat_packStep B s p h]
    simp

/-! ## Enumeration helpers -/

lemma enumFrom_map_fst {α : Type} : ∀ (l : List α) (n : Nat),
    (l.enumFrom n).map Prod.fst = List.range' n l.length
  | [], n => rfl
  | x :: xs, n => by
    simp only [List.enumFrom, List.map_cons, List.length_cons, List.range'_succ]
    rw [enumFrom_map_fst xs (n + 1)]

lemma enum_map_fst {α : Type} (l : List α) :
    l.enum.map Prod.fst = List.range l.length := by
  rw [List.range_eq_range']
  exact enumFrom_map_fst l 0

lemma getD_of_mem_enumFrom : ∀ (l : List ℚ) (n : Nat) (p : Nat × ℚ),
    p ∈ l.enumFrom n → ∃ k, p.1 = n + k ∧ l.getD k 0 = p.2
  | [], n, p, h => by simp [List.enumFrom] at h
  | x :: xs, n, p, h => by
    simp only [List.enumFrom, List.mem_cons] at h
    rcases h with h | h
    · exact ⟨0, by simp [h]⟩
    · rcases getD_of_mem_enumFrom xs (n + 1) p h with ⟨k, hk1, hk2⟩
      exact ⟨k + 1, by omega, by simpa using hk2⟩

lemma getD_of_mem_enum (l : List ℚ) (p : Nat × ℚ) (h : p ∈ l.enum) :
    l.getD p.1 0 = p.2 := by
  rcases getD_of_mem_enumFrom l 0 p h with ⟨k, hk1, hk2⟩
  rw [show p.1 = k from by omega]
  exact hk2

lemma snd_mem_of_mem_enumFrom {α : Type} : ∀ (l : List α) (n : Nat) (p : Nat × α),
    p ∈ l.enumFrom n → p.2 ∈ l
  | [], n, p, h => by simp [List.enumFrom] at h
  | x :: xs, n, p, h => by
    simp only [List.enumFrom, List.mem_cons] at h
    rcases h with h | h
    · simp [h]
    · exact List.mem_cons_of_mem x (snd_mem_of_mem_enumFrom xs (n + 1) p h)

/-! ## Claim C1: the packer is the spec's single-pass greedy recursion -/

lemma packSpecGo_eq_foldl (B : ℚ) : ∀ (l : List (Nat × ℚ)) (acc : JSArr)
    (ch : ℚ) (cc : Nat),
    packSpecGo B acc ch cc l = (l.foldl (packStep B) (ch, cc, acc)).2.2
  | [], _, _, _ => rfl
  | p :: l, acc, ch, cc => by
    by_cases hc : ch + p.2 ≤ B
    · rw [show packSpecGo B acc ch cc (p :: l) =
          packSpecGo B (jsAppendAt acc cc p.1) (ch + p.2) cc l from by
            simp [packSpecGo, hc],
        List.foldl_cons, packStep_pos (by rwa [add_comm]),
        packSpecGo_eq_foldl B l _ _ _]
    · rw [show packSpecGo B acc ch cc (p :: l) =
          packSpecGo B (jsAppendAt acc (cc + 1) p.1) p.2 (cc + 1) l from by
            simp [packSpecGo, hc],
        List.foldl_cons, packStep_neg (by rwa [add_comm]),
        packSpecGo_eq_foldl B l _ _ _]

/-- C1: the column packer is exactly the spec's single left-to-right
pass: a running column height starting at 0; an item whose height still
fits within `maxHeight` is appended to the current column and its
height added to the running height; otherwise the column index is
incremented, the running height is reset to the item's height, and the
item is placed in the new column. -/
theorem packer_single_pass_greedy (maxHeight : ℚ) (heights : List ℚ) :
    packColumns maxHeight heights = packSpecModel maxHeight heights := by
  rw [packColumns, packSpecModel, packSpecGo_eq_foldl]

/-- C2: concatenating all columns of the packer's output, in order,
yields exactly the original item indices `0, 1, ..., N-1` in source
order: nothing is dropped, duplicated or reordered. -/
theorem packer_concat_eq_source_order (B : ℚ) (H : List ℚ) :
    jsFlat (packColumns B H) = List.range H.length := by
  rw [packColumns, jsFlat_foldl B H.enum (0, 0, []) stInv_init, jsFlat_nil,
    List.nil_append, enum_map_fst]

/-! ## Claim C3: every column fits the budget or is a singleton -/

lemma hsum_singleton (H : List ℚ) (i : Nat) : hsum H [i] = H.getD i 0 := by
  simp [hsum]

lemma hsum_append_singleton (H : List ℚ) (c : List Nat) (i : Nat) :
    hsum H (c ++ [i]) = hsum H c + H.getD i 0 := by
  simp [hsum]

lemma foldl_inv {α β : Type} (f : β → α → β) (P : β → Prop) :
    ∀ (l : List α) (s : β), P s → (∀ b a, a ∈ l → P b → P (f b a)) →
      P (l.foldl f s)
  | [], _, h, _ => h
  | a :: l, s, h, hstep =>
    foldl_inv f P l (f s a) (hstep s a (List.mem_cons_self a l) h)
      (fun b a' ha' hb => hstep b a' (List.mem_cons_of_mem a ha') hb)

lemma packInv_init (B : ℚ) (H : List ℚ) : packInv B H (0, 0, []) := by
  refine ⟨?_, Or.inl ⟨rfl, rfl⟩⟩
  intro c hc
  simp at hc

lemma packInv_packStep (B : ℚ) (H : List ℚ) (s : ℚ × Nat × JSArr)
    (p : Nat × ℚ) (hp : H.getD p.1 0 = p.2) (h : packInv B H s) :
    packInv B H (packStep B s p) := by
  rcases s with ⟨ch, cc, acc⟩
  obtain ⟨hmem, hcur⟩ := h
  by_cases hc : p.2 + ch ≤ B
  · rw [packStep_pos hc]
    rcases hcur with ⟨hnil, hch⟩ | ⟨hlen, ccur, hget, hsc⟩
    · simp only at hnil hch
      subst hnil
      constructor
      · intro c hcmem
        rcases mem_jsSet _ _ _ _ hcmem with h' | h' | h'
        · simp at h'
        · rw [show c = [p.1] from by
            simpa [jsAppendAt, jsGet] using h']
          exact Or.inr rfl
        · simp at h'
      · right
        refine ⟨length_jsSet_of_ge [] cc _ (Nat.zero_le cc), [p.1], ?_, ?_⟩
        · exact jsGet_jsSet_self [] cc _
        · rw [hsum_singleton, hp, hch]
          ring
    · simp only at hlen hget hsc ⊢
      have hv : jsAppendAt acc cc p.1 = jsSet acc cc (ccur ++ [p.1]) := by
        rw [jsAppendAt, hget]
        rfl
      constructor
      · intro c hcmem
        rw [hv] at hcmem
        rcases mem_jsSet _ _ _ _ hcmem with h' | h' | h'
        · exact hmem c h'
        · rw [show c = ccur ++ [p.1] from by simpa using h']
          left
          rw [hsum_append_singleton, hp, hsc]
          linarith [hc]
        · simp at h'
      · right
        rw [hv, length_jsSet_of_lt acc cc _ (by omega)]
        refine ⟨hlen, ccur ++ [p.1], jsGet_jsSet_self acc cc _, ?_⟩
        rw [hsum_append_singleton, hp, hsc]
  · rw [packStep_neg hc]
    rcases hcur with ⟨hnil, hch⟩ | ⟨hlen, ccur, hget, hsc⟩
    · simp only at hnil hch
      subst hnil
      constructor
      · intro c hcmem
        rcases mem_jsSet _ _ _ _ hcmem with h' | h' | h'
        · simp at h'
        · rw [show c = [p.1] from by
            simpa [jsAppendAt, jsGet] using h']
          exact Or.inr rfl
        · simp at h'
      · right
        refine ⟨length_jsSet_of_ge [] (cc + 1) _ (Nat.zero_le _), [p.1], ?_, ?_⟩
        · exact jsGet_jsSet_self [] (cc + 1) _
        · rw [hsum_singleton, hp]
    · simp only at hlen hget hsc ⊢
      have hnone : jsGet acc (cc + 1) = none :=
        jsGet_eq_none_of_length_le acc (cc + 1) (by omega)
      have hv : jsAppendAt acc (cc + 1) p.1 = jsSet acc (cc + 1) [p.1] := by
        rw [jsAppendAt, hnone]
        rfl
      constructor
      · intro c hcmem
        rw [hv] at hcmem
        rcases mem_jsSet _ _ _ _ hcmem with h' | h' | h'
        · exact hmem c h'
        · rw [show c = [p.1] from by simpa using h']
          exact Or.inr rfl
        · simp at h'
      · right
        rw [hv, length_jsSet_of_ge acc (cc + 1) _ (by omega)]
        refine ⟨rfl, [p.1], jsGet_jsSet_self acc (cc + 1) _, ?_⟩
        rw [hsum_singleton, hp]

/-- C3: every column the packer produces either has total height within
the budget, or holds exactly one (oversized) item. -/
theorem packer_column_budget_or_singleton (B : ℚ) (H : List ℚ)
    (c : List Nat) (hc : c ∈ denseCols (packColumns B H)) :
    hsum H c ≤ B ∨ c.length = 1 := by
  have hinv : packInv B H (H.enum.foldl (packStep B) (0, 0, [])) :=
    foldl_inv (packStep B) (packInv B H) H.enum (0, 0, [])
      (packInv_init B H)
      (fun b p hp hb => packInv_packStep B H b p (getD_of_mem_enum H p hp) hb)
  rw [packColumns] at hc
  rcases List.mem_filterMap.mp hc with ⟨x, hx, hid⟩
  have hx' : some c ∈ (H.enum.foldl (packStep B) (0, 0, [])).2.2 := by
    rwa [show x = some c from hid] at hx
  exact hinv.1 c hx'

/-- Witness for C3 at the spec's own scenario: heights 100, 100, 100
against budget 250 put items 0 and 1 in one column of height 200. -/
theorem packer_column_budget_or_singleton_witness :
    [0, 1] ∈ denseCols (packColumns 250 [100, 100, 100]) ∧
      (hsum [100, 100, 100] [0, 1] ≤ 250 ∨ ([0, 1] : List Nat).length = 1) := by
  have hmem : [0, 1] ∈ denseCols (packColumns 250 [100, 100, 100]) := by
    norm_num [packColumns, packStep, jsAppendAt, jsSet, jsGet, denseCols,
      List.enum, List.enumFrom]
  exact ⟨hmem, packer_column_budget_or_singleton 250 [100, 100, 100] [0, 1] hmem⟩

/-! ## Claim C4: boundary behaviour -/

/-- C4: an empty item list packs to an empty column sequence (not one
empty column); a single item always yields exactly one column holding
that item, whatever its height; in particular height 300 against budget
250 still renders the single column with item 0. -/
theorem packer_boundary_cases (B h : ℚ) :
    packColumns B [] = [] ∧ denseCols (packColumns B [h]) = [[0]] ∧
      denseCols (packColumns 250 [300]) = [[0]] := by
  refine ⟨rfl, ?_, ?_⟩
  · by_cases hc : h ≤ B
    · simp [packColumns, packStep, jsAppendAt, jsSet, jsGet, denseCols,
        List.enum, List.enumFrom, List.filterMap_cons, hc]
    · simp [packColumns, packStep, jsAppendAt, jsSet, jsGet, denseCols,
        List.enum, List.enumFrom, List.filterMap_cons, hc]
  · norm_num [packColumns, packStep, jsAppendAt, jsSet, jsGet, denseCols,
      List.enum, List.enumFrom, List.filterMap_cons]

/-! ## Claim C10: an oversized first item leaves a hole at column 0 -/

lemma overflowInv_packStep (B : ℚ) (s : ℚ × Nat × JSArr) (p : Nat × ℚ)
    (h : overflowInv s) : overflowInv (packStep B s p) := by
  rcases s with ⟨ch, cc, acc⟩
  obtain ⟨hcc, hlen, h0, c, h1⟩ := h
  simp only at hcc hlen h0 h1
  by_cases hc : p.2 + ch ≤ B
  · rw [packStep_pos hc]
    refine ⟨hcc, ?_, ?_, ?_⟩
    · rw [show jsAppendAt acc cc p.1 = jsSet acc cc _ from rfl,
        length_jsSet_of_lt acc cc _ (by omega)]
      exact hlen
    · rw [show jsAppendAt acc cc p.1 = jsSet acc cc _ from rfl,
        jsGet_jsSet_ne acc cc 0 _ (by omega)]
      exact h0
    · by_cases hcc1 : cc = 1
      · subst hcc1
        have hv : jsAppendAt acc 1 p.1 = jsSet acc 1 (0 :: (c ++ [p.1])) := by
          rw [jsAppendAt, h1]
          rfl
        exact ⟨c ++ [p.1], by rw [hv, jsGet_jsSet_self]⟩
      · refine ⟨c, ?_⟩
        rw [show jsAppendAt acc cc p.1 = jsSet acc cc _ from rfl,
          jsGet_jsSet_ne acc cc 1 _ (by omega)]
        exact h1
  · rw [packStep_neg hc]
    refine ⟨show 1 ≤ cc + 1 by omega, ?_, ?_, c, ?_⟩
    · rw [show jsAppendAt acc (cc + 1) p.1 = jsSet acc (cc + 1) _ from rfl,
        length_jsSet_of_ge acc (cc + 1) _ (by omega)]
    · rw [show jsAppendAt acc (cc + 1) p.1 = jsSet acc (cc + 1) _ from rfl,
        jsGet_jsSet_ne acc (cc + 1) 0 _ (by omega)]
      exact h0
    · rw [show jsAppendAt acc (cc + 1) p.1 = jsSet acc (cc + 1) _ from rfl,
        jsGet_jsSet_ne acc (cc + 1) 1 _ (by omega)]
      exact h1

/-- C10: when the first item alone exceeds the (positive) budget, the
reduce increments `currentColumn` before its first assignment, so the
resulting array has a hole (no entry) at position 0, and item 0 opens
the column stored at index 1 — the output is not a dense sequence of
columns starting at index 0. -/
theorem packer_sparse_on_oversized_head (B h : ℚ) (hs : List ℚ)
    (hB : 0 < B) (hh : B < h) :
    jsGet (packColumns B (h :: hs)) 0 = none ∧
      ∃ c, jsGet (packColumns B (h :: hs)) 1 = some (0 :: c) := by
  have henum : (h :: hs).enum = (0, h) :: hs.enumFrom 1 := rfl
  have hno : ¬ ((0, h).2 + (0 : ℚ) ≤ B) := by
    simpa using not_le.mpr hh
  rw [packColumns, henum, List.foldl_cons, packStep_neg hno]
  have hinit : overflowInv (h, 0 + 1, jsAppendAt [] (0 + 1) 0) :=
    ⟨Nat.le_refl 1, rfl, rfl, [], rfl⟩
  have hinv : overflowInv ((hs.enumFrom 1).foldl (packStep B)
      (h, 0 + 1, jsAppendAt [] (0 + 1) 0)) :=
    foldl_inv (packStep B) overflowInv (hs.enumFrom 1) _ hinit
      (fun b p _ hb => overflowInv_packStep B b p hb)
  exact ⟨hinv.2.2.1, hinv.2.2.2⟩

/-- Witness for C10: budget 250, single item of height 300. -/
theorem packer_sparse_on_oversized_head_witness :
    (0 : ℚ) < 250 ∧ (250 : ℚ) < 300 ∧
      (jsGet (packColumns 250 [300]) 0 = none ∧
        ∃ c, jsGet (packColumns 250 [300]) 1 = some (0 :: c)) :=
  ⟨by norm_num, by norm_num,
    packer_sparse_on_oversized_head 250 300 [] (by norm_num) (by norm_num)⟩

/-! ## Claim C5: a larger budget never produces more columns -/

lemma jsAppendAt_eq (a : JSArr) (i idx : Nat) :
    jsAppendAt a i idx = jsSet a i ((jsGet a i).getD [] ++ [idx]) := rfl

lemma packStep_acc_ne_nil (B : ℚ) (s : ℚ × Nat × JSArr) (p : Nat × ℚ) :
    (packStep B s p).2.2 ≠ [] := by
  rcases s with ⟨ch, cc, acc⟩
  by_cases hc : p.2 + ch ≤ B
  · rw [packStep_pos hc]
    exact jsSet_ne_nil acc cc _
  · rw [packStep_neg hc]
    exact jsSet_ne_nil acc (cc + 1) _

lemma packStep_ch_nonneg (B : ℚ) (s : ℚ × Nat × JSArr) (p : Nat × ℚ)
    (h0 : 0 ≤ s.1) (hp : 0 ≤ p.2) : 0 ≤ (packStep B s p).1 := by
  rcases s with ⟨ch, cc, acc⟩
  by_cases hc : p.2 + ch ≤ B
  · rw [packStep_pos hc]
    exact add_nonneg h0 hp
  · rw [packStep_neg hc]
    exact hp

lemma goodSt_packStep (B : ℚ) (s : ℚ × Nat × JSArr) (p : Nat × ℚ)
    (h : goodSt s) : goodSt (packStep B s p) := by
  rcases s with ⟨ch, cc, acc⟩
  by_cases hc : p.2 + ch ≤ B
  · rw [packStep_pos hc]
    right
    rcases h with ⟨hnil, hcc, hch⟩ | ⟨hlen, hsome⟩
    · simp only at hnil hcc hch
      subst hnil
      subst hcc
      constructor
      · exact length_jsSet_of_ge [] 0 _ (Nat.le_refl 0)
      · rw [jsAppendAt_eq, jsGet_jsSet_self]
        rfl
    · simp only at hlen hsome
      constructor
      · rw [jsAppendAt_eq, length_jsSet_of_lt acc cc _ (by omega)]
        exact hlen
      · rw [jsAppendAt_eq, jsGet_jsSet_self]
        rfl
  · rw [packStep_neg hc]
    right
    rcases h with ⟨hnil, hcc, hch⟩ | ⟨hlen, hsome⟩
    · simp only at hnil
      subst hnil
      constructor
      · exact length_jsSet_of_ge [] (cc + 1) _ (Nat.zero_le _)
      · rw [jsAppendAt_eq, jsGet_jsSet_self]
        rfl
    · simp only at hlen
      constructor
      · exact length_jsSet_of_ge acc (cc + 1) _ (by omega)
      · rw [jsAppendAt_eq, jsGet_jsSet_self]
        rfl

lemma packStep_init_dlen (B : ℚ) (p : Nat × ℚ) :
    dlen (packStep B (0, 0, ([] : JSArr)) p).2.2 = 1 := by
  by_cases hc : p.2 + 0 ≤ B
  · rw [packStep_pos hc]
    simp only [jsAppendAt_eq]
    rw [dlen_jsSet_of_none [] 0 _ rfl]
    rfl
  · rw [packStep_neg hc]
    simp only [jsAppendAt_eq]
    rw [dlen_jsSet_of_none [] 1 _ rfl]
    rfl

lemma packStep_init_ch (B : ℚ) (p : Nat × ℚ) :
    (packStep B (0, 0, ([] : JSArr)) p).1 = p.2 := by
  by_cases hc : p.2 + 0 ≤ B
  · rw [packStep_pos hc]
    simp
  · rw [packStep_neg hc]

lemma packRel_packStep {B1 B2 : ℚ} (hB : B1 ≤ B2) (s1 s2 : ℚ × Nat × JSArr)
    (p : Nat × ℚ) (hp : 0 ≤ p.2) (h : packRel s1 s2) :
    packRel (packStep B1 s1 p) (packStep B2 s2 p) := by
  rcases s1 with ⟨ch1, cc1, acc1⟩
  rcases s2 with ⟨ch2, cc2, acc2⟩
  obtain ⟨hch1, hch2, hg1, hg2, hiff, hd⟩ := h
  simp only at hch1 hch2 hiff hd
  have hgs1 : goodSt (packStep B1 (ch1, cc1, acc1) p) :=
    goodSt_packStep B1 _ p hg1
  have hgs2 : goodSt (packStep B2 (ch2, cc2, acc2) p) :=
    goodSt_packStep B2 _ p hg2
  have hne1 := packStep_acc_ne_nil B1 (ch1, cc1, acc1) p
  have hne2 := packStep_acc_ne_nil B2 (ch2, cc2, acc2) p
  refine ⟨packStep_ch_nonneg B1 _ p hch1 hp, packStep_ch_nonneg B2 _ p hch2 hp,
    hgs1, hgs2, iff_of_false hne1 hne2, ?_⟩
  by_cases hnil1 : acc1 = []
  · -- both runs are still in the initial state
    have hnil2 : acc2 = [] := hiff.mp hnil1
    rcases hg1 with ⟨_, hcc1, hch1z⟩ | ⟨hlen1, _⟩
    · rcases hg2 with ⟨_, hcc2, hch2z⟩ | ⟨hlen2, _⟩
      · simp only at hcc1 hch1z hcc2 hch2z
        subst hnil1
        subst hnil2
        subst hcc1
        subst hcc2
        subst hch1z
        subst hch2z
        right
        constructor
        · rw [packStep_init_dlen, packStep_init_dlen]
        · rw [packStep_init_ch, packStep_init_ch]
      · simp only at hlen2
        rw [hnil2] at hlen2
        simp at hlen2
    · simp only at hlen1
      rw [hnil1] at hlen1
      simp at hlen1
  · -- both accumulators already hold a current column
    have hnil2 : acc2 ≠ [] := fun h' => hnil1 (hiff.mpr h')
    rcases hg1 with ⟨h', _, _⟩ | ⟨hlen1, hsome1⟩
    · exact absurd h' hnil1
    rcases hg2 with ⟨h', _, _⟩ | ⟨hlen2, hsome2⟩
    · exact absurd h' hnil2
    simp only at hlen1 hsome1 hlen2 hsome2
    have hnone1 : jsGet acc1 (cc1 + 1) = none :=
      jsGet_eq_none_of_length_le acc1 (cc1 + 1) (by omega)
    have hnone2 : jsGet acc2 (cc2 + 1) = none :=
      jsGet_eq_none_of_length_le acc2 (cc2 + 1) (by omega)
    by_cases hc1 : p.2 + ch1 ≤ B1 <;> by_cases hc2 : p.2 + ch2 ≤ B2
    · -- both budgets accept the item
      rw [packStep_pos hc1, packStep_pos hc2]
      simp only [jsAppendAt_eq]
      rw [dlen_jsSet_of_isSome acc1 cc1 _ hsome1,
        dlen_jsSet_of_isSome acc2 cc2 _ hsome2]
      rcases hd with hlt | ⟨heq, hle⟩
      · exact Or.inl hlt
      · exact Or.inr ⟨heq, by linarith⟩
    · -- the small budget accepts, the large one rejects
      rw [packStep_pos hc1, packStep_neg hc2]
      simp only [jsAppendAt_eq]
      rw [dlen_jsSet_of_isSome acc1 cc1 _ hsome1,
        dlen_jsSet_of_none acc2 (cc2 + 1) _ hnone2]
      rcases hd with hlt | ⟨heq, hle⟩
      · by_cases h2 : dlen acc2 + 1 < dlen acc1
        · exact Or.inl h2
        · exact Or.inr ⟨by omega, by linarith⟩
      · exact absurd (by linarith : p.2 + ch2 ≤ B2) hc2
    · -- the small budget rejects, the large one accepts
      rw [packStep_neg hc1, packStep_pos hc2]
      simp only [jsAppendAt_eq]
      rw [dlen_jsSet_of_none acc1 (cc1 + 1) _ hnone1,
        dlen_jsSet_of_isSome acc2 cc2 _ hsome2]
      rcases hd with hlt | ⟨heq, hle⟩
      · exact Or.inl (by omega)
      · exact Or.inl (by omega)
    · -- both budgets reject the item
      rw [packStep_neg hc1, packStep_neg hc2]
      simp only [jsAppendAt_eq]
      rw [dlen_jsSet_of_none acc1 (cc1 + 1) _ hnone1,
        dlen_jsSet_of_none acc2 (cc2 + 1) _ hnone2]
      rcases hd with hlt | ⟨heq, hle⟩
      · exact Or.inl (by omega)
      · exact Or.inr ⟨by omega, le_refl p.2⟩

lemma packRel_foldl {B1 B2 : ℚ} (hB : B1 ≤ B2) :
    ∀ (l : List (Nat × ℚ)) (s1 s2 : ℚ × Nat × JSArr),
      (∀ p ∈ l, 0 ≤ p.2) → packRel s1 s2 →
      packRel (l.foldl (packStep B1) s1) (l.foldl (packStep B2) s2)
  | [], _, _, _, h => h
  | p :: l, s1, s2, hl, h =>
    packRel_foldl hB l (packStep B1 s1 p) (packStep B2 s2 p)
      (fun q hq => hl q (List.mem_cons_of_mem p hq))
      (packRel_packStep hB s1 s2 p (hl p (List.mem_cons_self p l)) h)

lemma packRel_init : packRel (0, 0, ([] : JSArr)) (0, 0, ([] : JSArr)) :=
  ⟨le_refl 0, le_refl 0, Or.inl ⟨rfl, rfl, rfl⟩, Or.inl ⟨rfl, rfl, rfl⟩,
    Iff.rfl, Or.inr ⟨rfl, le_refl 0⟩⟩

/-- C5: for non-negative item heights, enlarging the budget never
increases the number of columns the packer produces. -/
theorem packer_budget_monotone (B1 B2 : ℚ) (H : List ℚ)
    (hH : ∀ h ∈ H, 0 ≤ h) (hB : B1 ≤ B2) :
    dlen (packColumns B2 H) ≤ dlen (packColumns B1 H) := by
  have hrel := packRel_foldl hB H.enum (0, 0, []) (0, 0, [])
    (fun p hp => hH p.2 (snd_mem_of_mem_enumFrom H 0 p hp)) packRel_init
  rw [packColumns, packColumns]
  rcases hrel.2.2.2.2.2 with hlt | ⟨heq, _⟩
  · exact le_of_lt hlt
  · exact le_of_eq heq

/-- Witness for C5: heights 100, 100, 100; budget 150 yields three
columns, budget 250 only two. -/
theorem packer_budget_monotone_witness :
    (∀ h ∈ [(100 : ℚ), 100, 100], 0 ≤ h) ∧ (150 : ℚ) ≤ 250 ∧
      dlen (packColumns 250 [100, 100, 100]) ≤
        dlen (packColumns 150 [100, 100, 100]) := by
  have hH : ∀ h ∈ [(100 : ℚ), 100, 100], 0 ≤ h := by norm_num
  exact ⟨hH, by norm_num,
    packer_budget_monotone 150 250 [100, 100, 100] hH (by norm_num)⟩

/-! ## Claim C6: the layout-effect guard tests `top`, not the budget -/

/-- Counterexample to C6: with the container measured at `top = 100` in
a window of height 50, the derived budget `0.8 * (50 - 100) = -40` is
non-positive, yet the guard `if (!childrenRefs.current || !top) return`
lets the effect run, so the packer is not withheld. -/
theorem layout_guard_counterexample :
    ¬ (∀ (top height : ℚ),
        computeMaxHeight height top ≤ 0 → layoutEffectRuns true top = false) := by
  intro hcl
  have h := hcl 100 50 (by norm_num [computeMaxHeight])
  simp only [layoutEffectRuns, Bool.true_and] at h
  rw [decide_eq_false (by norm_num : ¬ ((100 : ℚ) = 0))] at h
  simp at h

/-- C6 amended: the layout effect is withheld exactly when the measured
`top` offset is zero (container not yet measured) or the registry ref
is absent; a non-positive `maxHeight` with a non-zero `top` does not
prevent the packer from running. -/
theorem layout_guard_iff_top_zero (top : ℚ) :
    (layoutEffectRuns true top = false ↔ top = 0) ∧
      layoutEffectRuns false top = false := by
  constructor
  · simp [layoutEffectRuns]
  · simp [layoutEffectRuns]

/-! ## Claim C7: invalidation resets the columns but not the registry -/

/-- Counterexample to C7: running the effect cleanup on a packed state
whose registry holds one element handle leaves that handle registered —
the registry is not cleared. -/
theorem cleanup_counterexample :
    ¬ (∀ s : MenuState, (effectCleanup s).hasCalculatedColumns = false ∧
        (effectCleanup s).columns = some [] ∧
        (effectCleanup s).childrenRefs = []) := by
  intro hcl
  have h := (hcl ⟨true, some [some [0]], [some 7]⟩).2.2
  simp [effectCleanup] at h

/-- C7 amended: on any change of the effect dependencies (children,
budget, or top offset) the cleanup discards the computed columns and
resets the packed flag, but it leaves the item registry untouched:
`childrenRefs` keeps all entries from the previous cycle, and new
mounts merely overwrite individual indices. -/
theorem cleanup_resets_but_keeps_registry (s : MenuState) :
    (effectCleanup s).hasCalculatedColumns = false ∧
      (effectCleanup s).columns = some [] ∧
      (effectCleanup s).childrenRefs = s.childrenRefs :=
  ⟨rfl, rfl, rfl⟩

/-- Registration overwrites exactly the registered index, which is how
stale registry entries get replaced (there is no bulk clear). -/
lemma registerChild_getD : ∀ (refs : List (Option Nat)) (i r : Nat),
    (registerChild refs i r).getD i none = some r
  | [], 0, r => rfl
  | [], i + 1, r => by
    simp only [registerChild, List.getD]
    exact registerChild_getD [] i r
  | x :: xs, 0, r => rfl
  | x :: xs, i + 1, r => by
    simp only [registerChild, List.getD]
    exact registerChild_getD xs i r

/-! ## Claim C8: `itemsCount` can go negative via the remove button -/

/-- Counterexample to C8: clicking the remove-item button at
`itemsCount = 0` yields `-1`, so not every interaction preserves
non-negativity. -/
theorem items_count_counterexample :
    ¬ (∀ n : ℤ, 0 ≤ n → 0 ≤ removeItemClick n) := by
  intro hcl
  have h := hcl 0 le_rfl
  norm_num [removeItemClick] at h

/-- C8 amended: the add-item button and the text input always keep
`itemsCount` non-negative, and the remove-item button keeps it
non-negative only from a positive value; from 0 it produces -1, as the
decrement has no floor. -/
theorem items_count_updates_nonneg :
    (∀ n : ℤ, 0 ≤ n → 0 ≤ addItemClick n) ∧
      (∀ s : String, 0 ≤ inputChangeValue s) ∧
      (∀ n : ℤ, 0 < n → 0 ≤ removeItemClick n) := by
  refine ⟨fun n hn => ?_, fun s => ?_, fun n hn => ?_⟩
  · unfold addItemClick
    omega
  · unfold inputChangeValue
    exact Int.ofNat_nonneg _
  · unfold removeItemClick
    omega

/-- Witness for C8 amended: one concrete interaction of each kind. -/
theorem items_count_updates_nonneg_witness :
    0 ≤ addItemClick 0 ∧ 0 ≤ inputChangeValue "12a" ∧ 0 ≤ removeItemClick 1 :=
  ⟨items_count_updates_nonneg.1 0 le_rfl,
    items_count_updates_nonneg.2.1 "12a",
    items_count_updates_nonneg.2.2 1 (by norm_num)⟩

/-! ## Claim C9: the dropdown context lookup fails fast -/

/-- C9: calling `useDropdownContext` with no provider value present
throws an error whose message names the missing provider
(`DropdownProvider`), and a present context value is returned as-is —
a `none` context is never handed back to the caller. -/
theorem use_dropdown_context_fail_fast :
    useDropdownContext (none : Option Unit) = Except.error dropdownErrorMessage ∧
      (∃ pre post : String,
        dropdownErrorMessage = pre ++ "DropdownProvider" ++ post) ∧
      ∀ (α : Type) (c : α), useDropdownContext (some c) = Except.ok c :=
  ⟨rfl, ⟨"useDropdownContext hook must be used within ", ".", rfl⟩,
    fun _ _ => rfl⟩

end PocMenu
